import Mathlib

/-!
Verification of the reactor-core message engine (the `infect` crate).

The development shallowly embeds the Rust sources:

* `src/message.rs`, `src/effect.rs`, `src/intent.rs`, `src/model.rs` —
  the value types (`Message`, `EffectApplied`, `IntentHandled`,
  `ModelChanged`) and the conversion helpers.
* `src/processing.rs` — `process_message` and `consume_messages`.
* `src/messaging.rs` — `send_message`, `handle_next_message` and
  `message_loop` (a historical variant of the same subsystem kept in the
  repository, based on `src/state.rs` and `src/action.rs`).

Collaborator traits (`Model`, `ModelRender`, `TaskExecutor`, …) become
records of functions.  Mutation through `&mut self` becomes explicit
state passing.  The externally observable calls a driver makes (spawned
tasks, submitted intents, render invocations, how often each model
operation ran) are recorded in the driver state, mirroring what the Rust
code hands to its collaborators.  Loops whose trip count depends on the
collaborators (the `next_effect` chain, the consume loop) take explicit
fuel and return `none` when the fuel is exhausted; every theorem below
is stated for runs that complete.
-/

namespace Infect

/-- The `Message` from `src/message.rs`: an intent or an effect. -/
inductive Message (Intent Effect : Type) : Type
  | intent : Intent → Message Intent Effect
  | effect : Effect → Message Intent Effect
  deriving DecidableEq

/-- The `EffectApplied` from `src/effect.rs`: outcome of applying an effect
to the model, carrying a render hint, an optional follow-up task and an
optional follow-up effect. -/
structure EffectApplied (Effect Task Hint : Type) : Type where
  render_hint : Hint
  task : Option Task
  next_effect : Option Effect
  deriving DecidableEq

/-- The `IntentHandled` from `src/intent.rs` in the shape used by
`src/model.rs` and `src/processing.rs`: an intent is either rejected or
accepted by applying an effect. -/
inductive IntentHandled (Rejected Effect Task Hint : Type) : Type
  | rejected : Rejected → IntentHandled Rejected Effect Task Hint
  | accepted : EffectApplied Effect Task Hint → IntentHandled Rejected Effect Task Hint
  deriving DecidableEq

/-- The `ModelChanged` from `src/model.rs`: the basic render hint. -/
inductive ModelChanged : Type
  | unchanged : ModelChanged
  | maybeChanged : ModelChanged
  deriving DecidableEq, Fintype

/-- Rust `#[default] Unchanged` on `ModelChanged`. -/
instance : Inhabited ModelChanged := ⟨ModelChanged.unchanged⟩

/-- The `impl Add<ModelChanged> for ModelChanged` from `src/model.rs`. -/
def ModelChanged.add : ModelChanged → ModelChanged → ModelChanged
  | ModelChanged.unchanged, ModelChanged.unchanged => ModelChanged.unchanged
  | ModelChanged.maybeChanged, _ => ModelChanged.maybeChanged
  | _, ModelChanged.maybeChanged => ModelChanged.maybeChanged

instance : Add ModelChanged := ⟨ModelChanged.add⟩

/-- The `ModelRenderHint::should_render_model` for `ModelChanged`
(`src/model.rs`). -/
def ModelChanged.should_render_model : ModelChanged → Bool
  | ModelChanged.unchanged => false
  | ModelChanged.maybeChanged => true

/-- The `MessageProcessed` from `src/processing.rs`. -/
inductive MessageProcessed (Rejected : Type) : Type
  | intentRejected : Rejected → MessageProcessed Rejected
  | progressing : MessageProcessed Rejected
  | noProgress : MessageProcessed Rejected
  deriving DecidableEq

/-- The collaborator operations `process_message` is generic over:
`Model::handle_intent` and `Model::apply_effect` (both `&mut self`, so
they return the updated model), `ModelRenderHint::should_render_model`,
and `ModelRender::render_model` (`&mut self` render state, returning an
optionally observed intent). -/
structure ModelOps (M R Intent Effect Task Rejected Hint : Type) : Type where
  handle_intent : M → Intent → M × IntentHandled Rejected Effect Task Hint
  apply_effect : M → Effect → M × EffectApplied Effect Task Hint
  should_render_model : Hint → Bool
  render_model : R → M → Hint → R × Option Intent

/-- Driver state of one `process_message` run: the model, the render
state, and the record of externally observable calls (tasks handed to
`TaskContext::spawn_task`, intents handed to
`TaskContext::submit_intent`, hints passed to
`ModelRender::render_model`, and how often each model operation was
invoked). -/
structure ProcState (M R Intent Task Hint : Type) : Type where
  model : M
  render : R
  spawnedTasks : List Task
  submittedIntents : List Intent
  renderCalls : List Hint
  handleIntentCalls : Nat
  applyEffectCalls : Nat
  deriving DecidableEq

/-- Initial driver state with empty call records. -/
def initState {M R Intent Task Hint : Type} (m : M) (r : R) :
    ProcState M R Intent Task Hint :=
  { model := m, render := r, spawnedTasks := [], submittedIntents := [],
    renderCalls := [], handleIntentCalls := 0, applyEffectCalls := 0 }

variable {M R Intent Effect Task Rejected Hint : Type}

/-- First half of the loop body of `process_message`
(`src/processing.rs` lines 55-70): resolve the current message to an
`EffectApplied`, or short-circuit with the rejection. -/
def resolveMessage (c : ModelOps M R Intent Effect Task Rejected Hint)
    (st : ProcState M R Intent Task Hint) :
    Message Intent Effect →
      (Rejected × ProcState M R Intent Task Hint) ⊕
        (EffectApplied Effect Task Hint × ProcState M R Intent Task Hint)
  | Message.intent i =>
    match c.handle_intent st.model i with
    | (m1, IntentHandled.rejected r) =>
        Sum.inl (r, { st with model := m1,
                              handleIntentCalls := st.handleIntentCalls + 1 })
    | (m1, IntentHandled.accepted ea) =>
        Sum.inr (ea, { st with model := m1,
                               handleIntentCalls := st.handleIntentCalls + 1 })
  | Message.effect e =>
    match c.apply_effect st.model e with
    | (m1, ea) =>
        Sum.inr (ea, { st with model := m1,
                               applyEffectCalls := st.applyEffectCalls + 1 })

/-- Second half of the loop body of `process_message`
(`src/processing.rs` lines 76-93): spawn the follow-up task if present,
and render the model if the render hint of this step demands it,
submitting an observed intent.  Returns the updated state and the
updated `progressing` flag. -/
def applyStep (c : ModelOps M R Intent Effect Task Rejected Hint)
    (st : ProcState M R Intent Task Hint) (progressing : Bool)
    (ea : EffectApplied Effect Task Hint) :
    ProcState M R Intent Task Hint × Bool :=
  let taskStep : ProcState M R Intent Task Hint × Bool :=
    match ea.task with
    | some t => ({ st with spawnedTasks := st.spawnedTasks ++ [t] }, true)
    | none => (st, progressing)
  let st1 := taskStep.1
  let p1 := taskStep.2
  if c.should_render_model ea.render_hint then
    match c.render_model st1.render st1.model ea.render_hint with
    | (r1, some i) =>
        ({ st1 with render := r1,
                    renderCalls := st1.renderCalls ++ [ea.render_hint],
                    submittedIntents := st1.submittedIntents ++ [i] }, true)
    | (r1, none) =>
        ({ st1 with render := r1,
                    renderCalls := st1.renderCalls ++ [ea.render_hint] }, p1)
  else (st1, p1)

/-- The loop of `process_message` (`src/processing.rs` lines 54-101),
with explicit fuel: each iteration resolves the current message, runs
the task/render section, and either continues with the follow-up effect
or terminates and converts the `progressing` flag into the outcome. -/
def processMessageGo (c : ModelOps M R Intent Effect Task Rejected Hint) :
    Nat → ProcState M R Intent Task Hint → Bool → Message Intent Effect →
      Option (MessageProcessed Rejected × ProcState M R Intent Task Hint)
  | 0, _, _, _ => none
  | fuel + 1, st, progressing, msg =>
    match resolveMessage c st msg with
    | Sum.inl (r, st1) => some (MessageProcessed.intentRejected r, st1)
    | Sum.inr (ea, st1) =>
      let stepped := applyStep c st1 progressing ea
      match ea.next_effect with
      | some e => processMessageGo c fuel stepped.1 stepped.2 (Message.effect e)
      | none =>
          some ((if stepped.2 then MessageProcessed.progressing
                 else MessageProcessed.noProgress), stepped.1)

/-- The `process_message` from `src/processing.rs`: run the loop with the
`progressing` flag initially `false`. -/
def processMessage (c : ModelOps M R Intent Effect Task Rejected Hint)
    (fuel : Nat) (st : ProcState M R Intent Task Hint)
    (msg : Message Intent Effect) :
    Option (MessageProcessed Rejected × ProcState M R Intent Task Hint) :=
  processMessageGo c fuel st false msg

/-- The `next_effect` chain induced by one input message: the list of
render hints returned by the `handle_intent`/`apply_effect` steps, and
the final model.  This is the model/hint skeleton of
`process_message`; rendering and task bookkeeping cannot influence it
because neither touches the model. -/
def chainRun (c : ModelOps M R Intent Effect Task Rejected Hint) :
    Nat → M → Message Intent Effect → Option (List Hint × M)
  | 0, _, _ => none
  | fuel + 1, m, msg =>
    match msg with
    | Message.intent i =>
      match c.handle_intent m i with
      | (m1, IntentHandled.rejected _) => some ([], m1)
      | (m1, IntentHandled.accepted ea) =>
        match ea.next_effect with
        | some e =>
            (chainRun c fuel m1 (Message.effect e)).map
              (fun p => (ea.render_hint :: p.1, p.2))
        | none => some ([ea.render_hint], m1)
    | Message.effect e =>
      match c.apply_effect m e with
      | (m1, ea) =>
        match ea.next_effect with
        | some e2 =>
            (chainRun c fuel m1 (Message.effect e2)).map
              (fun p => (ea.render_hint :: p.1, p.2))
        | none => some ([ea.render_hint], m1)

/-- The characterization established by `processMessageGo_spec`, as a
predicate: a completed run agrees with the `next_effect` chain
(`chainRun`) on the final model; tasks, submitted intents and render
calls accumulate onto the input state, with the render calls being
exactly the chain hints that demand rendering; `handle_intent` runs
once for an intent input and never otherwise, `apply_effect` runs once
per remaining chain step; a rejection can only arise from an intent
input and leaves no trace; and a non-rejected outcome is `Progressing`
exactly when the flag was already set, a task was spawned or an intent
was submitted. -/
def GoSpec (c : ModelOps M R Intent Effect Task Rejected Hint)
    (fuel : Nat) (st : ProcState M R Intent Task Hint) (p : Bool)
    (msg : Message Intent Effect) (out : MessageProcessed Rejected)
    (st1 : ProcState M R Intent Task Hint) : Prop :=
  ∃ (hs : List Hint) (ts : List Task) (is : List Intent) (m1 : M),
    chainRun c fuel st.model msg = some (hs, m1) ∧
    st1.model = m1 ∧
    st1.spawnedTasks = st.spawnedTasks ++ ts ∧
    st1.submittedIntents = st.submittedIntents ++ is ∧
    st1.renderCalls =
      st.renderCalls ++ hs.filter (fun h => c.should_render_model h) ∧
    st1.handleIntentCalls = st.handleIntentCalls +
      (match msg with
       | Message.intent _ => 1
       | Message.effect _ => 0) ∧
    st1.applyEffectCalls = st.applyEffectCalls + (hs.length -
      (match msg with
       | Message.intent _ => 1
       | Message.effect _ => 0)) ∧
    (∀ r, out = MessageProcessed.intentRejected r →
      (∃ i, msg = Message.intent i) ∧ hs = [] ∧ ts = [] ∧ is = []) ∧
    ((∀ r, out ≠ MessageProcessed.intentRejected r) →
      (out = MessageProcessed.progressing ↔
        (p = true ∨ ts ≠ [] ∨ is ≠ [])))

/-- The `MessagesConsumed` from `src/processing.rs`, extended with the
`wouldBlock` marker for the single suspension point of
`consume_messages`: the loop is parked awaiting the next message of an
empty, still-open channel.  (In the embedding the channel contents are
a fixed list, so a run that reaches the blocking receive on an empty
open channel is reported as `wouldBlock` instead of diverging.) -/
inductive ConsumeExit (Rejected : Type) : Type
  | intentRejected : Rejected → ConsumeExit Rejected
  | channelClosed : ConsumeExit Rejected
  | noProgressExit : ConsumeExit Rejected
  | wouldBlock : ConsumeExit Rejected
  deriving DecidableEq

/-- The `consume_messages` from `src/processing.rs` (lines 134-192).  The
channel is a list of queued messages plus a `closed` flag; intents
submitted during processing (the render feedback path) are enqueued at
the back.  Control flow per iteration mirrors the source: a blocking
receive at the top (`wouldBlock` on empty open channel, `channelClosed`
on empty closed channel), then `process_message`; on `IntentRejected`
the loop stops with that rejection; on `Progressing` it loops back to
the blocking receive; on `NoProgress` it performs the non-blocking
`try_next`: a ready message continues the loop, an empty closed channel
stops with `channelClosed`, and an empty open channel stops with the
`NoProgress` outcome. -/
def consumeMessagesGo (c : ModelOps M R Intent Effect Task Rejected Hint)
    (pfuel : Nat) :
    Nat → M → R → List (Message Intent Effect) → Bool →
      Option (ConsumeExit Rejected × M)
  | 0, _, _, _, _ => none
  | lfuel + 1, m, r, queue, closed =>
    match queue with
    | [] =>
        if closed then some (ConsumeExit.channelClosed, m)
        else some (ConsumeExit.wouldBlock, m)
    | msg :: rest =>
      match processMessage c pfuel (initState m r) msg with
      | none => none
      | some (out, st) =>
        let queue1 := rest ++ st.submittedIntents.map Message.intent
        match out with
        | MessageProcessed.intentRejected rej =>
            some (ConsumeExit.intentRejected rej, st.model)
        | MessageProcessed.progressing =>
            consumeMessagesGo c pfuel lfuel st.model st.render queue1 closed
        | MessageProcessed.noProgress =>
          match queue1 with
          | [] =>
              if closed then some (ConsumeExit.channelClosed, st.model)
              else some (ConsumeExit.noProgressExit, st.model)
          | m2 :: rest2 =>
              consumeMessagesGo c pfuel lfuel st.model st.render
                (m2 :: rest2) closed

end Infect

namespace Messaging

/-!
The historical variant of the subsystem: `src/state.rs`, `src/action.rs`
and `src/messaging.rs`.  Here the model is called `State`, an accepted
intent yields an optional `Action` (apply an effect immediately or
dispatch a task), the render hint is the accumulated `StateChanged`,
and the loop `message_loop` consults `TaskDispatcher::all_tasks_finished`.
-/

/-- The `StateChanged` from `src/state.rs`. -/
inductive StateChanged : Type
  | unchanged : StateChanged
  | maybeChanged : StateChanged
  deriving DecidableEq

/-- The `impl Add<StateChanged> for StateChanged` from `src/state.rs`. -/
def StateChanged.add : StateChanged → StateChanged → StateChanged
  | StateChanged.unchanged, StateChanged.unchanged => StateChanged.unchanged
  | _, _ => StateChanged.maybeChanged

instance : Add StateChanged := ⟨StateChanged.add⟩

/-- The action variants used by `src/messaging.rs`
(`Action::ApplyEffect` and `Action::DispatchTask`; the sibling snapshot
`src/action.rs` names the second variant `SpawnTask`). -/
inductive MAction (Effect Task : Type) : Type
  | applyEffect : Effect → MAction Effect Task
  | dispatchTask : Task → MAction Effect Task
  deriving DecidableEq

/-- The `StateUpdated` from `src/state.rs`. -/
structure StateUpdated (Effect Task : Type) : Type where
  changed : StateChanged
  next_action : Option (MAction Effect Task)
  deriving DecidableEq

/-- The `StateUpdated::unchanged` from `src/state.rs`. -/
def StateUpdated.unchangedWith {Effect Task : Type}
    (next_action : Option (MAction Effect Task)) : StateUpdated Effect Task :=
  { changed := StateChanged.unchanged, next_action := next_action }

/-- The `IntentHandled` from `src/state.rs`: acceptance carries an optional
next action. -/
inductive SIntentHandled (Intent Effect Task : Type) : Type
  | accepted : Option (MAction Effect Task) → SIntentHandled Intent Effect Task
  | rejected : Intent → SIntentHandled Intent Effect Task
  deriving DecidableEq

/-- The collaborator operations of the historical variant: the `State`
trait (`handle_intent` takes `&self` and cannot mutate the state;
`update` takes `&mut self`) and the `RenderStateFn` callback (an
`FnMut` closure; its mutable environment is the explicit `RS`
component). -/
structure StateOps (S RS Intent Effect Task : Type) : Type where
  handle_intent : S → Intent → SIntentHandled Intent Effect Task
  update : S → Effect → S × StateUpdated Effect Task
  render_fn : RS → S → RS × Option Intent

/-- The `MessageHandled` from `src/messaging.rs`. -/
inductive MessageHandled : Type
  | progressing : MessageHandled
  | noProgress : MessageHandled
  deriving DecidableEq

/-- Result record of one `handle_next_message` run: the final state, the
final render-closure environment, the outcome, the intents passed to
`send_message` (in order), and the dispatched tasks. -/
structure HandleResult (S RS Intent Task : Type) : Type where
  state : S
  renderSt : RS
  handled : MessageHandled
  sentIntents : List Intent
  dispatchedTasks : List Task
  deriving DecidableEq

/-- The tail of the loop body of `handle_next_message` after the action
dispatch: the render check (accumulated change observed or at least one
next action) and the conversion of the counters into the outcome
(`src/messaging.rs` lines 120-135). -/
def finishMessage {S RS Intent Effect Task : Type}
    (c : StateOps S RS Intent Effect Task) (s1 : S) (rs : RS)
    (changed1 : StateChanged) (nActions nSent nTasks : Nat)
    (sent : List Intent) (tasks : List Task) :
    Option (HandleResult S RS Intent Task) :=
  let rendered : RS × List Intent × Nat :=
    if changed1 = StateChanged.maybeChanged ∨ 0 < nActions then
      match c.render_fn rs s1 with
      | (rs1, some i) => (rs1, sent ++ [i], nSent + 1)
      | (rs1, none) => (rs1, sent, nSent)
    else (rs, sent, nSent)
  some { state := s1, renderSt := rendered.1,
         handled := if 0 < rendered.2.2 + nTasks then
             MessageHandled.progressing
           else MessageHandled.noProgress,
         sentIntents := rendered.2.1, dispatchedTasks := tasks }

/-- The `process_next_message` loop of `handle_next_message`
(`src/messaging.rs` lines 78-136), with explicit fuel.  Arguments after
the fuel: current state, render environment, the accumulated
`state_changed`, the counters `number_of_next_actions`,
`number_of_messages_sent`, `number_of_tasks_dispatched`, the recorded
sent intents and dispatched tasks, and the current message.  An
`ApplyEffect` next action continues the loop with the effect as the new
message; otherwise the render check runs and the loop breaks.  The
outcome is `Progressing` iff at least one message was sent or one task
was dispatched. -/
def handleNextMessageGo {S RS Intent Effect Task : Type}
    (c : StateOps S RS Intent Effect Task) :
    Nat → S → RS → StateChanged → Nat → Nat → Nat →
      List Intent → List Task → Infect.Message Intent Effect →
      Option (HandleResult S RS Intent Task)
  | 0, _, _, _, _, _, _, _, _, _ => none
  | hfuel + 1, s, rs, changed, nActions, nSent, nTasks, sent, tasks, msg =>
    let updated : S × StateUpdated Effect Task :=
      match msg with
      | Infect.Message.intent i =>
        match c.handle_intent s i with
        | SIntentHandled.accepted next_action =>
            (s, StateUpdated.unchangedWith next_action)
        | SIntentHandled.rejected _ =>
            (s, StateUpdated.unchangedWith none)
      | Infect.Message.effect e => c.update s e
    let s1 := updated.1
    let changed1 := changed + updated.2.changed
    match updated.2.next_action with
    | some (MAction.applyEffect e) =>
        handleNextMessageGo c hfuel s1 rs changed1 (nActions + 1) nSent
          nTasks sent tasks (Infect.Message.effect e)
    | some (MAction.dispatchTask t) =>
        finishMessage c s1 rs changed1 (nActions + 1) nSent (nTasks + 1)
          sent (tasks ++ [t])
    | none =>
        finishMessage c s1 rs changed1 nActions nSent nTasks sent tasks

/-- The `handle_next_message` from `src/messaging.rs`: run the loop with the
accumulator and all counters at their initial values. -/
def handleNextMessage {S RS Intent Effect Task : Type}
    (c : StateOps S RS Intent Effect Task) (hfuel : Nat) (s : S) (rs : RS)
    (msg : Infect.Message Intent Effect) :
    Option (HandleResult S RS Intent Task) :=
  handleNextMessageGo c hfuel s rs StateChanged.unchanged 0 0 0 [] [] msg

/-- How a `message_loop` run ended: the channel closed and drained
(`while let` receives `None`), the idle `break` after no progress with
all tasks finished, or the loop is parked at the blocking receive of an
empty, still-open channel. -/
inductive LoopExit : Type
  | closedExit : LoopExit
  | idleExit : LoopExit
  | wouldBlock : LoopExit
  deriving DecidableEq

/-- The `message_loop` from `src/messaging.rs` (lines 139-176).  The channel
is a list of queued messages plus a `closed` flag; intents sent during
`handle_next_message` are enqueued at the back.  `allFinished k` is the
value of `TaskDispatcher::all_tasks_finished()` at its `k`-th
consultation (the oracle may answer differently over time as tasks
complete concurrently).  Per iteration: blocking receive at the top;
then `handle_next_message`; on `Progressing` loop; on `NoProgress`
consult `all_tasks_finished` — `true` breaks out of the loop (the idle
exit), `false` loops back to the blocking receive. -/
def messageLoopGo {S RS Intent Effect Task : Type}
    (c : StateOps S RS Intent Effect Task) (allFinished : Nat → Bool)
    (hfuel : Nat) :
    Nat → S → RS → List (Infect.Message Intent Effect) → Bool → Nat →
      Option (LoopExit × S)
  | 0, _, _, _, _, _ => none
  | lfuel + 1, s, rs, queue, closed, k =>
    match queue with
    | [] =>
        if closed then some (LoopExit.closedExit, s)
        else some (LoopExit.wouldBlock, s)
    | msg :: rest =>
      match handleNextMessage c hfuel s rs msg with
      | none => none
      | some res =>
        let queue1 := rest ++ res.sentIntents.map Infect.Message.intent
        match res.handled with
        | MessageHandled.progressing =>
            messageLoopGo c allFinished hfuel lfuel res.state res.renderSt
              queue1 closed k
        | MessageHandled.noProgress =>
            if allFinished k then some (LoopExit.idleExit, res.state)
            else
              messageLoopGo c allFinished hfuel lfuel res.state res.renderSt
                queue1 closed (k + 1)

end Messaging

namespace Infect

/-!
The message channel and `send_message` from `src/messaging.rs`.  The
`futures::channel::mpsc` channel is modelled as a bounded buffer with a
`closed` flag; `try_send` fails with a disconnection error when the
receiver is gone and with a fullness error when the buffer is at
capacity.
-/

/-- The bounded message channel (spec section 4.1): capacity, queued
messages in FIFO order, and whether the receiver end is gone. -/
structure Channel (Msg : Type) : Type where
  capacity : Nat
  buffer : List Msg
  closed : Bool
  deriving DecidableEq

/-- The two observable `TrySendError` conditions of the channel:
`is_disconnected()` and `is_full()`. -/
inductive TrySendError : Type
  | disconnected : TrySendError
  | full : TrySendError
  deriving DecidableEq

/-- The `Sender::try_send`: enqueue if the channel is open and below
capacity, otherwise report the error; the channel itself is unchanged
on failure. -/
def Channel.try_send {Msg : Type} (ch : Channel Msg) (m : Msg) :
    Channel Msg × Option TrySendError :=
  if ch.closed then (ch, some TrySendError.disconnected)
  else if ch.capacity ≤ ch.buffer.length then (ch, some TrySendError.full)
  else ({ ch with buffer := ch.buffer ++ [m] }, none)

/-- What `send_message` logged about the attempt: delivered, dropped
because the channel is closed (debug log), or dropped because the
channel is full (warning log). -/
inductive SendOutcome : Type
  | sent : SendOutcome
  | droppedClosed : SendOutcome
  | droppedFull : SendOutcome
  deriving DecidableEq

/-- The `send_message` from `src/messaging.rs` (lines 32-55): try to send,
and on failure inspect the error — a disconnected channel drops the
message with a debug log, a full channel drops it with a warning; no
error is ever returned to the caller. -/
def send_message {Msg : Type} (ch : Channel Msg) (m : Msg) :
    Channel Msg × SendOutcome :=
  match ch.try_send m with
  | (ch1, none) => (ch1, SendOutcome.sent)
  | (ch1, some TrySendError.disconnected) => (ch1, SendOutcome.droppedClosed)
  | (ch1, some TrySendError.full) => (ch1, SendOutcome.droppedFull)

/-!
The conversions between `IntentHandled` and its `Result` representation
`IntentHandledResult` (`src/intent.rs` lines 79-109), with the `Into`
conversions of the four type parameters as explicit functions.  Rust
`Result<EffectApplied, Rejected>` is `Except Rejected EffectApplied`.
-/

/-- The `EffectApplied::map_from` / `map_into` from `src/effect.rs`: map all
three fields through conversions. -/
def EffectApplied.map {E T H E2 T2 H2 : Type} (fE : E → E2) (fT : T → T2)
    (fH : H → H2) (ea : EffectApplied E T H) : EffectApplied E2 T2 H2 :=
  { render_hint := fH ea.render_hint, task := ea.task.map fT,
    next_effect := ea.next_effect.map fE }

/-- The `IntentHandledResult` from `src/intent.rs`. -/
def IntentHandledResult (Rejected Effect Task Hint : Type) : Type :=
  Except Rejected (EffectApplied Effect Task Hint)

/-- The `impl From<IntentHandled> for IntentHandledResult` from
`src/intent.rs`: `Accepted` maps to `Ok` (converting the payload),
`Rejected` maps to `Err`. -/
def IntentHandled.intoResult {Rj E T H Rj2 E2 T2 H2 : Type}
    (fR : Rj → Rj2) (fE : E → E2) (fT : T → T2) (fH : H → H2) :
    IntentHandled Rj E T H → IntentHandledResult Rj2 E2 T2 H2
  | IntentHandled.accepted ea => Except.ok (ea.map fE fT fH)
  | IntentHandled.rejected r => Except.error (fR r)

/-- The `impl From<IntentHandledResult> for IntentHandled` from
`src/intent.rs`: `Ok` maps to `Accepted` (converting the payload),
`Err` maps to `Rejected`. -/
def IntentHandled.ofResult {Rj E T H Rj2 E2 T2 H2 : Type}
    (fR : Rj → Rj2) (fE : E → E2) (fT : T → T2) (fH : H → H2) :
    IntentHandledResult Rj E T H → IntentHandled Rj2 E2 T2 H2
  | Except.ok ea => IntentHandled.accepted (ea.map fE fT fH)
  | Except.error r => IntentHandled.rejected (fR r)

/-!
Concrete collaborator instances used to evaluate the theorems below on
closed inputs.
-/

/-- A minimal concrete model over `Nat`: every intent is rejected with
`()`, every effect increments the model and reports no render hint, no
task and no follow-up effect; rendering observes no intent. -/
def quietOps : ModelOps Nat Unit Unit Unit Unit Unit ModelChanged :=
  { handle_intent := fun m _ => (m, IntentHandled.rejected ()),
    apply_effect := fun m _ =>
      (m + 1, { render_hint := ModelChanged.unchanged, task := none,
                next_effect := none }),
    should_render_model := ModelChanged.should_render_model,
    render_model := fun r _ _ => (r, none) }

/-- A concrete model whose `apply_effect` chains exactly once: from
model `0` it returns a follow-up effect, from any other model none;
both steps report `MaybeChanged`.  Rendering observes no intent. -/
def chainTwiceOps : ModelOps Nat Unit Unit Unit Unit Unit ModelChanged :=
  { handle_intent := fun m _ => (m, IntentHandled.rejected ()),
    apply_effect := fun m _ =>
      if m = 0 then
        (1, { render_hint := ModelChanged.maybeChanged, task := none,
              next_effect := some () })
      else
        (2, { render_hint := ModelChanged.maybeChanged, task := none,
              next_effect := none }),
    should_render_model := ModelChanged.should_render_model,
    render_model := fun r _ _ => (r, none) }

end Infect

namespace Messaging

/-- A minimal concrete state for the historical variant: every intent is
rejected, every update leaves the state unchanged with no action, and
rendering observes no intent. -/
def quietStateOps : StateOps Unit Unit Unit Unit Unit :=
  { handle_intent := fun _ _ => SIntentHandled.rejected (),
    update := fun s _ =>
      (s, { changed := StateChanged.unchanged, next_action := none }),
    render_fn := fun rs _ => (rs, none) }

end Messaging

namespace Infect

variable {M R Intent Effect Task Rejected Hint : Type}

/-- The `EffectApplied::map_from` with identity conversions is the
identity. -/
theorem EffectApplied.map_id {E T H : Type} (ea : EffectApplied E T H) :
    ea.map id id id = ea := by
  cases ea with
  | mk render_hint task next_effect =>
    cases task <;> cases next_effect <;> rfl

/-- C6: every call of `send_message` returns normally with no error
value: on a closed channel the message is dropped (debug log), on a
full channel it is dropped (warning log), and otherwise it is enqueued
at the back; in no case does the caller observe a failure, and
`try_send` never blocks the producer. -/
theorem send_message_never_fails {Msg : Type} (ch : Channel Msg) (m : Msg) :
    send_message ch m =
      if ch.closed then (ch, SendOutcome.droppedClosed)
      else if ch.capacity ≤ ch.buffer.length then (ch, SendOutcome.droppedFull)
      else ({ ch with buffer := ch.buffer ++ [m] }, SendOutcome.sent) := by
  unfold send_message Channel.try_send
  split_ifs <;> rfl

/-- C7: `ModelChanged` is a commutative idempotent monoid under `Add`
with `Unchanged` as the zero and default: the combination is
associative, commutative and idempotent, the default value is
`Unchanged` and does not render, the default is a two-sided unit, and
combining `MaybeChanged` with anything yields a value that renders. -/
theorem modelChanged_monoid_props :
    (∀ a b c : ModelChanged, a + b + c = a + (b + c)) ∧
    (∀ a b : ModelChanged, a + b = b + a) ∧
    (∀ a : ModelChanged, a + a = a) ∧
    (default : ModelChanged) = ModelChanged.unchanged ∧
    (default : ModelChanged).should_render_model = false ∧
    (∀ a : ModelChanged,
      (default : ModelChanged) + a = a ∧ a + (default : ModelChanged) = a) ∧
    (∀ a : ModelChanged,
      (ModelChanged.maybeChanged + a).should_render_model = true ∧
      (a + ModelChanged.maybeChanged).should_render_model = true) := by
  decide

/-- C10: with identity type conversions, the conversions between
`IntentHandled` and `IntentHandledResult` are mutually inverse, and they
map `Accepted` to `Ok` and `Rejected` to `Err` in both directions. -/
theorem intentHandled_result_roundtrip {Rj E T H : Type} :
    (∀ ih : IntentHandled Rj E T H,
        IntentHandled.ofResult id id id id (ih.intoResult id id id id) = ih) ∧
    (∀ res : IntentHandledResult Rj E T H,
        (IntentHandled.ofResult id id id id res :
            IntentHandled Rj E T H).intoResult id id id id = res) ∧
    (∀ ea : EffectApplied E T H,
        (IntentHandled.accepted ea :
            IntentHandled Rj E T H).intoResult id id id id = Except.ok ea) ∧
    (∀ r : Rj,
        (IntentHandled.rejected r :
            IntentHandled Rj E T H).intoResult id id id id = Except.error r) ∧
    (∀ ea : EffectApplied E T H,
        IntentHandled.ofResult id id id id
            (Except.ok ea : IntentHandledResult Rj E T H) =
          IntentHandled.accepted ea) ∧
    (∀ r : Rj,
        IntentHandled.ofResult id id id id
            (Except.error r : IntentHandledResult Rj E T H) =
          IntentHandled.rejected r) := by
  refine ⟨?_, ?_, ?_, ?_, ?_, ?_⟩
  · intro ih
    cases ih with
    | accepted ea =>
        simp [IntentHandled.intoResult, IntentHandled.ofResult,
          EffectApplied.map_id]
    | rejected r => rfl
  · intro res
    cases res with
    | ok ea =>
        simp [IntentHandled.intoResult, IntentHandled.ofResult,
          EffectApplied.map_id]
    | error r => rfl
  · intro ea
    simp [IntentHandled.intoResult, EffectApplied.map_id]
  · intro r; rfl
  · intro ea
    simp [IntentHandled.ofResult, EffectApplied.map_id]
  · intro r; rfl

/-- C3: when `handle_intent` rejects an intent (leaving the model
unchanged, as the `Model` contract requires of a rejection),
`process_message` returns `IntentRejected(reason)` immediately: no
`apply_effect` call, no spawned task, no submitted message, no render
invocation, and the model is unchanged — the resulting state differs
from the input state only in the `handle_intent` call count. -/
theorem processMessage_rejected_no_side_effects
    (c : ModelOps M R Intent Effect Task Rejected Hint)
    (st : ProcState M R Intent Task Hint) (i : Intent) (r : Rejected)
    (fuel : Nat)
    (h : c.handle_intent st.model i = (st.model, IntentHandled.rejected r)) :
    processMessage c (fuel + 1) st (Message.intent i) =
      some (MessageProcessed.intentRejected r,
        { st with handleIntentCalls := st.handleIntentCalls + 1 }) := by
  simp [processMessage, processMessageGo, resolveMessage, h]

/-- Witness for C3 at a concrete input. -/
theorem processMessage_rejected_no_side_effects_witness :
    processMessage quietOps 1 (initState 0 ()) (Message.intent ()) =
      some (MessageProcessed.intentRejected (),
        { initState 0 () with handleIntentCalls := 1 }) :=
  processMessage_rejected_no_side_effects quietOps (initState 0 ()) () () 0 rfl

/-- Characterization of the task/render section of the `process_message`
loop body: the model and the call counters are untouched, the task of
the step (if any) is appended to the spawned tasks, the hint of the step is
appended to the render calls exactly when it demands rendering, at most
one observed intent is appended to the submitted intents, and the
`progressing` flag is raised exactly by a spawned task or a submitted
intent. -/
theorem applyStep_spec (c : ModelOps M R Intent Effect Task Rejected Hint)
    (st : ProcState M R Intent Task Hint) (p : Bool)
    (ea : EffectApplied Effect Task Hint) :
    ∃ is : List Intent,
      (applyStep c st p ea).1.model = st.model ∧
      (applyStep c st p ea).1.handleIntentCalls = st.handleIntentCalls ∧
      (applyStep c st p ea).1.applyEffectCalls = st.applyEffectCalls ∧
      (applyStep c st p ea).1.spawnedTasks =
        st.spawnedTasks ++ ea.task.toList ∧
      (applyStep c st p ea).1.submittedIntents =
        st.submittedIntents ++ is ∧
      (applyStep c st p ea).1.renderCalls = st.renderCalls ++
        (if c.should_render_model ea.render_hint then [ea.render_hint]
         else []) ∧
      ((applyStep c st p ea).2 = true ↔
        (p = true ∨ ea.task.toList ≠ [] ∨ is ≠ [])) := by
  cases hT : ea.task with
  | none =>
    by_cases hR : c.should_render_model ea.render_hint
    · cases hRM : c.render_model st.render st.model ea.render_hint with
      | mk r1 oi =>
        cases oi with
        | none => exact ⟨[], by simp [applyStep, hT, hR, hRM]⟩
        | some i => exact ⟨[i], by simp [applyStep, hT, hR, hRM]⟩
    · exact ⟨[], by simp [applyStep, hT, hR]⟩
  | some t =>
    by_cases hR : c.should_render_model ea.render_hint
    · cases hRM : c.render_model st.render st.model ea.render_hint with
      | mk r1 oi =>
        cases oi with
        | none => exact ⟨[], by simp [applyStep, hT, hR, hRM]⟩
        | some i => exact ⟨[i], by simp [applyStep, hT, hR, hRM]⟩
    · exact ⟨[], by simp [applyStep, hT, hR]⟩

/-- Propositional bookkeeping for progress flags: raising the flag for
either half of two concatenated trace segments is raising it for the
concatenation. -/
theorem progress_or_assoc {α β : Type} (p : Prop) (a b : List α)
    (x y : List β) :
    ((p ∨ a ≠ [] ∨ x ≠ []) ∨ b ≠ [] ∨ y ≠ []) ↔
      (p ∨ a ++ b ≠ [] ∨ x ++ y ≠ []) := by
  simp only [ne_eq, List.append_eq_nil, not_and_or]
  tauto

/-- Characterization of the continuation of the `process_message` loop
after the current message has been resolved to an `EffectApplied`:
the remaining run agrees with the remaining chain, never rejects, and
accumulates traces onto the post-resolution state `stA`.  The induction
hypothesis on the remaining fuel is passed in explicitly. -/
theorem processMessageGo_cont_spec
    (c : ModelOps M R Intent Effect Task Rejected Hint) (fuel : Nat)
    (IH : ∀ st p msg out st1,
      processMessageGo c fuel st p msg = some (out, st1) →
      GoSpec c fuel st p msg out st1)
    (stA : ProcState M R Intent Task Hint) (p : Bool)
    (ea : EffectApplied Effect Task Hint)
    (out : MessageProcessed Rejected) (st1 : ProcState M R Intent Task Hint)
    (hGo : (match ea.next_effect with
            | some e => processMessageGo c fuel (applyStep c stA p ea).1
                (applyStep c stA p ea).2 (Message.effect e)
            | none => some ((if (applyStep c stA p ea).2 then
                  MessageProcessed.progressing
                else MessageProcessed.noProgress), (applyStep c stA p ea).1)) =
        some (out, st1)) :
    ∃ (hs : List Hint) (ts : List Task) (is : List Intent) (m1 : M),
      (match ea.next_effect with
       | some e => (chainRun c fuel stA.model (Message.effect e)).map
           (fun q => (ea.render_hint :: q.1, q.2))
       | none => some ([ea.render_hint], stA.model)) = some (hs, m1) ∧
      1 ≤ hs.length ∧
      st1.model = m1 ∧
      st1.spawnedTasks = stA.spawnedTasks ++ ts ∧
      st1.submittedIntents = stA.submittedIntents ++ is ∧
      st1.renderCalls = stA.renderCalls ++
        hs.filter (fun h => c.should_render_model h) ∧
      st1.handleIntentCalls = stA.handleIntentCalls ∧
      st1.applyEffectCalls = stA.applyEffectCalls + (hs.length - 1) ∧
      (∀ r, out ≠ MessageProcessed.intentRejected r) ∧
      (out = MessageProcessed.progressing ↔
        (p = true ∨ ts ≠ [] ∨ is ≠ [])) := by
  obtain ⟨is0, hm, hhc, hac, hsp, hsub, hrc, hprog⟩ := applyStep_spec c stA p ea
  cases hNE : ea.next_effect with
  | none =>
    simp only [hNE] at hGo
    simp only [Option.some.injEq, Prod.mk.injEq] at hGo
    obtain ⟨hout, hst⟩ := hGo
    subst hst
    refine ⟨[ea.render_hint], ea.task.toList, is0, stA.model,
      by simp, by simp, hm, hsp, hsub, ?_, hhc, by simpa using hac, ?_, ?_⟩
    · rw [hrc]
      by_cases hph : c.should_render_model ea.render_hint <;>
        simp [List.filter_cons, hph]
    · intro r hr
      rw [← hout] at hr
      split at hr <;> simp at hr
    · rw [← hout]
      cases hX : (applyStep c stA p ea).2 with
      | true =>
        rw [hX] at hprog
        simp only [if_true]
        simpa using hprog.mp rfl
      | false =>
        rw [hX] at hprog
        simp only [if_false, Bool.false_eq_true]
        constructor
        · intro hcontra; exact absurd hcontra (by simp)
        · intro hrhs
          exact absurd (hprog.mpr hrhs) (by simp)
  | some e2 =>
    simp only [hNE] at hGo
    obtain ⟨hs2, ts2, is2, m2, hchain2, hm2, hsp2, hsub2, hrc2, hhc2,
      hac2, hrej2, hpro2⟩ := IH _ _ _ _ _ hGo
    rw [hm] at hchain2
    have hnr : ∀ r, out ≠ MessageProcessed.intentRejected r := by
      intro r hr
      obtain ⟨⟨i2, heq⟩, -⟩ := hrej2 r hr
      exact Message.noConfusion heq
    refine ⟨ea.render_hint :: hs2, ea.task.toList ++ ts2, is0 ++ is2, m2,
      ?_, by simp, hm2, ?_, ?_, ?_, ?_, ?_, hnr, ?_⟩
    · simp only [hNE, hchain2]; rfl
    · rw [hsp2, hsp, List.append_assoc]
    · rw [hsub2, hsub, List.append_assoc]
    · rw [hrc2, hrc, List.append_assoc]
      by_cases hph : c.should_render_model ea.render_hint <;>
        simp [List.filter_cons, hph]
    · rw [hhc2, hhc]; rfl
    · rw [hac2, hac]
      simp only [List.length_cons]
      omega
    · have hiff := hpro2 hnr
      rw [hiff, hprog]
      exact progress_or_assoc _ _ _ _ _

/-- Main characterization of the `process_message` loop: every completed
run satisfies `GoSpec` — see there for the individual facts. -/
theorem processMessageGo_spec
    (c : ModelOps M R Intent Effect Task Rejected Hint) :
    ∀ (fuel : Nat) (st : ProcState M R Intent Task Hint) (p : Bool)
      (msg : Message Intent Effect) (out : MessageProcessed Rejected)
      (st1 : ProcState M R Intent Task Hint),
      processMessageGo c fuel st p msg = some (out, st1) →
      GoSpec c fuel st p msg out st1 := by
  intro fuel
  induction fuel with
  | zero =>
    intro st p msg out st1 hGo
    simp [processMessageGo] at hGo
  | succ fuel IH =>
    intro st p msg out st1 hGo
    cases msg with
    | intent i =>
      rcases hHI : c.handle_intent st.model i with ⟨m1, ihd⟩
      cases ihd with
      | rejected r =>
        have hres : resolveMessage c st (Message.intent i) =
            Sum.inl (r,
              { st with
                  model := m1,
                  handleIntentCalls := st.handleIntentCalls + 1 }) := by
          simp [resolveMessage, hHI]
        simp only [processMessageGo, hres] at hGo
        simp only [Option.some.injEq, Prod.mk.injEq] at hGo
        obtain ⟨hout, hst⟩ := hGo
        subst hout
        subst hst
        unfold GoSpec
        refine ⟨[], [], [], m1, by simp [chainRun, hHI], rfl, by simp,
          by simp, by simp, rfl, by simp, ?_, ?_⟩
        · intro r2 hr
          exact ⟨⟨i, rfl⟩, rfl, rfl, rfl⟩
        · intro hne
          exact absurd rfl (hne r)
      | accepted ea =>
        have hres : resolveMessage c st (Message.intent i) =
            Sum.inr (ea,
              { st with
                  model := m1,
                  handleIntentCalls := st.handleIntentCalls + 1 }) := by
          simp [resolveMessage, hHI]
        simp only [processMessageGo, hres] at hGo
        obtain ⟨hs, ts, is, m2, hchain, hlen, hmm, hsp, hsub, hrc, hhc,
          hac, hnr, hiff⟩ :=
          processMessageGo_cont_spec c fuel IH _ p ea out st1 hGo
        unfold GoSpec
        refine ⟨hs, ts, is, m2, ?_, hmm, by simpa using hsp,
          by simpa using hsub, by simpa using hrc, by simpa using hhc,
          by simpa using hac, ?_, fun _ => hiff⟩
        · simpa [chainRun, hHI] using hchain
        · intro r hr
          exact absurd hr (hnr r)
    | effect e =>
      rcases hAE : c.apply_effect st.model e with ⟨m1, ea⟩
      have hres : resolveMessage c st (Message.effect e) =
          Sum.inr (ea,
            { st with
                model := m1,
                applyEffectCalls := st.applyEffectCalls + 1 }) := by
        simp [resolveMessage, hAE]
      simp only [processMessageGo, hres] at hGo
      obtain ⟨hs, ts, is, m2, hchain, hlen, hmm, hsp, hsub, hrc, hhc,
        hac, hnr, hiff⟩ :=
        processMessageGo_cont_spec c fuel IH _ p ea out st1 hGo
      unfold GoSpec
      refine ⟨hs, ts, is, m2, ?_, hmm, by simpa using hsp,
        by simpa using hsub, by simpa using hrc, by simpa using hhc, ?_,
        ?_, fun _ => hiff⟩
      · simpa [chainRun, hAE] using hchain
      · have hac2 : st1.applyEffectCalls =
            st.applyEffectCalls + 1 + (hs.length - 1) := hac
        show st1.applyEffectCalls = st.applyEffectCalls + (hs.length - 0)
        omega
      · intro r hr
        exact absurd hr (hnr r)

/-- Converse direction: when the `next_effect` chain completes within
the fuel, `process_message` completes as well (the rendering and task
bookkeeping never blocks the loop). -/
theorem chainRun_some_processMessageGo
    (c : ModelOps M R Intent Effect Task Rejected Hint) :
    ∀ (fuel : Nat) (m : M) (msg : Message Intent Effect)
      (hs : List Hint) (m1 : M) (st : ProcState M R Intent Task Hint)
      (p : Bool), st.model = m →
      chainRun c fuel m msg = some (hs, m1) →
      ∃ out st1, processMessageGo c fuel st p msg = some (out, st1) := by
  intro fuel
  induction fuel with
  | zero =>
    intro m msg hs m1 st p hm hcr
    simp [chainRun] at hcr
  | succ fuel IH =>
    intro m msg hs m1 st p hm hcr
    subst hm
    cases msg with
    | intent i =>
      rcases hHI : c.handle_intent st.model i with ⟨mA, ihd⟩
      cases ihd with
      | rejected r =>
        have hres : resolveMessage c st (Message.intent i) =
            Sum.inl (r,
              { st with
                  model := mA,
                  handleIntentCalls := st.handleIntentCalls + 1 }) := by
          simp [resolveMessage, hHI]
        exact ⟨_, _, by simp only [processMessageGo, hres]; rfl⟩
      | accepted ea =>
        have hres : resolveMessage c st (Message.intent i) =
            Sum.inr (ea,
              { st with
                  model := mA,
                  handleIntentCalls := st.handleIntentCalls + 1 }) := by
          simp [resolveMessage, hHI]
        cases hNE : ea.next_effect with
        | none =>
          exact ⟨_, _, by simp only [processMessageGo, hres, hNE]; rfl⟩
        | some e2 =>
          simp only [chainRun, hHI, hNE] at hcr
          obtain ⟨⟨hs2, m2⟩, hcr2, -⟩ := Option.map_eq_some'.mp hcr
          obtain ⟨-, hmA, -, -, -, -, -, -⟩ :=
            applyStep_spec c
              { st with
                  model := mA,
                  handleIntentCalls := st.handleIntentCalls + 1 } p ea
          obtain ⟨out, st1, hrun⟩ :=
            IH mA (Message.effect e2) hs2 m2 _ _ (by simpa using hmA) hcr2
          exact ⟨out, st1, by simp only [processMessageGo, hres, hNE]; exact hrun⟩
    | effect e =>
      rcases hAE : c.apply_effect st.model e with ⟨mA, ea⟩
      have hres : resolveMessage c st (Message.effect e) =
          Sum.inr (ea,
            { st with
                model := mA,
                applyEffectCalls := st.applyEffectCalls + 1 }) := by
        simp [resolveMessage, hAE]
      cases hNE : ea.next_effect with
      | none =>
        exact ⟨_, _, by simp only [processMessageGo, hres, hNE]; rfl⟩
      | some e2 =>
        simp only [chainRun, hAE, hNE] at hcr
        obtain ⟨⟨hs2, m2⟩, hcr2, -⟩ := Option.map_eq_some'.mp hcr
        obtain ⟨-, hmA, -, -, -, -, -, -⟩ :=
          applyStep_spec c
            { st with
                model := mA,
                applyEffectCalls := st.applyEffectCalls + 1 } p ea
        obtain ⟨out, st1, hrun⟩ :=
          IH mA (Message.effect e2) hs2 m2 _ _ (by simpa using hmA) hcr2
        exact ⟨out, st1, by simp only [processMessageGo, hres, hNE]; exact hrun⟩

/-- C1 (amended): in `process_message` the render hints of the chain
steps are not accumulated into a running total; the
`render_hint` of each step is evaluated individually, during the chain, and
`render_model` is invoked once for every step whose own hint demands
rendering — the recorded render calls are exactly the chain hints
filtered by `should_render_model`, so one message can trigger several
render invocations. -/
theorem processMessage_renderCalls_per_step
    (c : ModelOps M R Intent Effect Task Rejected Hint) (fuel : Nat)
    (m : M) (r : R) (msg : Message Intent Effect)
    (out : MessageProcessed Rejected)
    (st1 : ProcState M R Intent Task Hint)
    (h : processMessage c fuel (initState m r) msg = some (out, st1)) :
    ∃ (hs : List Hint) (m1 : M),
      chainRun c fuel m msg = some (hs, m1) ∧
      st1.renderCalls =
        hs.filter (fun hint => c.should_render_model hint) := by
  have hspec := processMessageGo_spec c fuel (initState m r) false msg out st1 h
  unfold GoSpec at hspec
  obtain ⟨hs, ts, is, m1, hchain, -, -, -, hrc, -, -, -, -⟩ := hspec
  exact ⟨hs, m1, by simpa [initState] using hchain,
    by simpa [initState] using hrc⟩

/-- Witness for the amended C1 at a concrete input. -/
theorem processMessage_renderCalls_per_step_witness :
    ∃ (hs : List ModelChanged) (m1 : Nat),
      chainRun quietOps 1 0 (Message.effect ()) = some (hs, m1) ∧
      ({ model := 1, render := (), spawnedTasks := [],
         submittedIntents := [], renderCalls := [],
         handleIntentCalls := 0, applyEffectCalls := 1 } :
        ProcState Nat Unit Unit Unit ModelChanged).renderCalls =
        hs.filter (fun hint => quietOps.should_render_model hint) :=
  processMessage_renderCalls_per_step quietOps 1 0 () (Message.effect ())
    MessageProcessed.noProgress
    { model := 1, render := (), spawnedTasks := [],
      submittedIntents := [], renderCalls := [],
      handleIntentCalls := 0, applyEffectCalls := 1 } rfl

/-- C1 counterexample: with `chainTwiceOps`, one effect message runs a
chain of two steps whose hints each demand rendering, and
`render_model` is invoked twice — once per chain step, during the chain
— contradicting the claim that the hints are accumulated into a single
total and the render contract is invoked at most once per message, only
after the chain terminates. -/
theorem processMessage_render_twice_cex :
    (processMessage chainTwiceOps 2 (initState 0 ())
        (Message.effect ())).map (fun q => q.2.renderCalls) =
      some [ModelChanged.maybeChanged, ModelChanged.maybeChanged] := rfl

/-- C4: the `next_effect` chain is the only looping construct of
`process_message` and exits exactly when `next_effect` is absent: for
any model whose `apply_effect` first returns a follow-up effect and on
the follow-up returns none, processing one input effect message
completes (with two units of fuel beyond any slack) having called
`apply_effect` exactly twice, the second call on the model produced by
the first, before control returns. -/
theorem processMessage_chain_two_apply_calls
    (c : ModelOps M R Intent Effect Task Rejected Hint)
    (fuel : Nat) (m m1 m2 : M) (r : R) (e e2 : Effect)
    (ea ea2 : EffectApplied Effect Task Hint)
    (h1 : c.apply_effect m e = (m1, ea)) (hne : ea.next_effect = some e2)
    (h2 : c.apply_effect m1 e2 = (m2, ea2))
    (hne2 : ea2.next_effect = none) :
    ∃ out st1,
      processMessage c (fuel + 2) (initState m r) (Message.effect e) =
        some (out, st1) ∧
      st1.applyEffectCalls = 2 ∧ st1.model = m2 := by
  have hcr : chainRun c (fuel + 2) m (Message.effect e) =
      some ([ea.render_hint, ea2.render_hint], m2) := by
    show chainRun c (fuel + 1 + 1) m (Message.effect e) = _
    simp [chainRun, h1, hne, h2, hne2]
  obtain ⟨out, st1, hrun⟩ :=
    chainRun_some_processMessageGo c (fuel + 2) m (Message.effect e) _ _
      (initState m r) false rfl hcr
  have hspec := processMessageGo_spec c (fuel + 2) (initState m r) false
    (Message.effect e) out st1 hrun
  unfold GoSpec at hspec
  obtain ⟨hs, ts, is, m2x, hchain, hmod, -, -, -, -, hac, -, -⟩ := hspec
  have hinj := hcr.symm.trans hchain
  simp only [Option.some.injEq, Prod.mk.injEq] at hinj
  obtain ⟨hlist, hm2⟩ := hinj
  subst hlist
  refine ⟨out, st1, hrun, ?_, hmod.trans hm2.symm⟩
  exact hac.trans rfl

/-- Witness for C4 at a concrete input. -/
theorem processMessage_chain_two_apply_calls_witness :
    ∃ out st1,
      processMessage chainTwiceOps 2 (initState 0 ()) (Message.effect ()) =
        some (out, st1) ∧
      st1.applyEffectCalls = 2 ∧ st1.model = 2 :=
  processMessage_chain_two_apply_calls chainTwiceOps 0 0 1 2 () () ()
    { render_hint := ModelChanged.maybeChanged, task := none,
      next_effect := some () }
    { render_hint := ModelChanged.maybeChanged, task := none,
      next_effect := none }
    rfl rfl rfl rfl

/-- C5: a completed `process_message` run returns `Progressing` exactly
when it spawned at least one task or submitted at least one message
(this also covers rejections, which spawn and submit nothing and do not
return `Progressing`), and the final model is the one produced by the
full `next_effect` chain — so a chain that spawns no task and submits
no intent returns `NoProgress` even though all its mutations were
applied to the model. -/
theorem processMessage_progressing_iff_task_or_submit
    (c : ModelOps M R Intent Effect Task Rejected Hint) (fuel : Nat)
    (m : M) (r : R) (msg : Message Intent Effect)
    (out : MessageProcessed Rejected)
    (st1 : ProcState M R Intent Task Hint)
    (h : processMessage c fuel (initState m r) msg = some (out, st1)) :
    (out = MessageProcessed.progressing ↔
      (st1.spawnedTasks ≠ [] ∨ st1.submittedIntents ≠ [])) ∧
    ∃ (hs : List Hint) (m1 : M),
      chainRun c fuel m msg = some (hs, m1) ∧ st1.model = m1 := by
  have hspec := processMessageGo_spec c fuel (initState m r) false msg out st1 h
  unfold GoSpec at hspec
  obtain ⟨hs, ts, is, m1, hchain, hmod, hsp, hsub, -, -, -, hrej, hiff⟩ :=
    hspec
  have hsp1 : st1.spawnedTasks = ts := by simpa [initState] using hsp
  have hsub1 : st1.submittedIntents = is := by simpa [initState] using hsub
  refine ⟨?_, hs, m1, by simpa [initState] using hchain, hmod⟩
  rw [hsp1, hsub1]
  cases out with
  | intentRejected rj =>
    obtain ⟨-, -, hts, his⟩ := hrej rj rfl
    subst hts
    subst his
    simp
  | progressing =>
    have hthis := hiff (fun r2 => by simp)
    rcases hthis.mp rfl with h2 | h2 | h2
    · exact absurd h2 (by simp)
    · exact ⟨fun _ => Or.inl h2, fun _ => rfl⟩
    · exact ⟨fun _ => Or.inr h2, fun _ => rfl⟩
  | noProgress =>
    have hthis := hiff (fun r2 => by simp)
    refine ⟨fun hcontra => absurd hcontra (by simp), fun hrhs => ?_⟩
    exact absurd (hthis.mpr (Or.inr hrhs)) (by simp)

/-- Witness for C5 at a concrete input. -/
theorem processMessage_progressing_iff_task_or_submit_witness :
    ((MessageProcessed.noProgress : MessageProcessed Unit) =
        MessageProcessed.progressing ↔
      (({ model := 1, render := (), spawnedTasks := [],
          submittedIntents := [], renderCalls := [],
          handleIntentCalls := 0, applyEffectCalls := 1 } :
          ProcState Nat Unit Unit Unit ModelChanged).spawnedTasks ≠ [] ∨
        ({ model := 1, render := (), spawnedTasks := [],
           submittedIntents := [], renderCalls := [],
           handleIntentCalls := 0, applyEffectCalls := 1 } :
          ProcState Nat Unit Unit Unit ModelChanged).submittedIntents ≠ [])) ∧
    ∃ (hs : List ModelChanged) (m1 : Nat),
      chainRun quietOps 1 0 (Message.effect ()) = some (hs, m1) ∧
      ({ model := 1, render := (), spawnedTasks := [],
         submittedIntents := [], renderCalls := [],
         handleIntentCalls := 0, applyEffectCalls := 1 } :
        ProcState Nat Unit Unit Unit ModelChanged).model = m1 :=
  processMessage_progressing_iff_task_or_submit quietOps 1 0 ()
    (Message.effect ()) MessageProcessed.noProgress
    { model := 1, render := (), spawnedTasks := [],
      submittedIntents := [], renderCalls := [],
      handleIntentCalls := 0, applyEffectCalls := 1 } rfl

/-- C9: `handle_intent` is invoked exactly once per `process_message`
call on an intent input and never on an effect input (every chain
continuation is wrapped as an effect message), and a rejection outcome
can only arise when the original input message was an intent — hence an
effect input can never return `IntentRejected`, and rejection can only
be decided on the first iteration of the chain. -/
theorem processMessage_handle_intent_once
    (c : ModelOps M R Intent Effect Task Rejected Hint) (fuel : Nat)
    (m : M) (r : R) (msg : Message Intent Effect)
    (out : MessageProcessed Rejected)
    (st1 : ProcState M R Intent Task Hint)
    (h : processMessage c fuel (initState m r) msg = some (out, st1)) :
    (∀ i, msg = Message.intent i → st1.handleIntentCalls = 1) ∧
    (∀ e, msg = Message.effect e → st1.handleIntentCalls = 0) ∧
    (∀ rej, out = MessageProcessed.intentRejected rej →
      ∃ i, msg = Message.intent i) := by
  have hspec := processMessageGo_spec c fuel (initState m r) false msg out st1 h
  unfold GoSpec at hspec
  obtain ⟨hs, ts, is, m1, -, -, -, -, -, hhc, -, hrej, -⟩ := hspec
  refine ⟨?_, ?_, ?_⟩
  · intro i hmsg
    subst hmsg
    simpa [initState] using hhc
  · intro e hmsg
    subst hmsg
    simpa [initState] using hhc
  · intro rej hout
    exact (hrej rej hout).1

/-- Witness for C9 at a concrete input. -/
theorem processMessage_handle_intent_once_witness :
    (∀ i : Unit, (Message.intent () : Message Unit Unit) =
        Message.intent i →
      ({ model := 0, render := (), spawnedTasks := [],
         submittedIntents := [], renderCalls := [],
         handleIntentCalls := 1, applyEffectCalls := 0 } :
        ProcState Nat Unit Unit Unit ModelChanged).handleIntentCalls = 1) ∧
    (∀ e : Unit, (Message.intent () : Message Unit Unit) =
        Message.effect e →
      ({ model := 0, render := (), spawnedTasks := [],
         submittedIntents := [], renderCalls := [],
         handleIntentCalls := 1, applyEffectCalls := 0 } :
        ProcState Nat Unit Unit Unit ModelChanged).handleIntentCalls = 0) ∧
    (∀ rej : Unit,
      (MessageProcessed.intentRejected () : MessageProcessed Unit) =
        MessageProcessed.intentRejected rej →
      ∃ i : Unit, (Message.intent () : Message Unit Unit) =
        Message.intent i) :=
  processMessage_handle_intent_once quietOps 1 0 () (Message.intent ())
    (MessageProcessed.intentRejected ())
    { model := 0, render := (), spawnedTasks := [],
      submittedIntents := [], renderCalls := [],
      handleIntentCalls := 1, applyEffectCalls := 0 } rfl

/-- C8: `process_message` is deterministic — with the same collaborator
functions, equal driver states and equal messages produce equal results
— and rejection is idempotent: when `handle_intent` rejects an intent
leaving the model unchanged (as its contract requires), the run returns
that rejection, the final model equals the initial one, and resubmitting
the same intent against the resulting model yields the very same
rejection and state. -/
theorem processMessage_deterministic_rejection_idempotent
    (c : ModelOps M R Intent Effect Task Rejected Hint)
    (fuel : Nat) (m : M) (r : R) (i : Intent) (rej : Rejected)
    (hrej : c.handle_intent m i = (m, IntentHandled.rejected rej)) :
    (∀ (st1 st2 : ProcState M R Intent Task Hint)
        (msg1 msg2 : Message Intent Effect), st1 = st2 → msg1 = msg2 →
        processMessage c fuel st1 msg1 = processMessage c fuel st2 msg2) ∧
    (∀ out st1,
        processMessage c (fuel + 1) (initState m r) (Message.intent i) =
          some (out, st1) →
        out = MessageProcessed.intentRejected rej ∧ st1.model = m ∧
        processMessage c (fuel + 1) (initState st1.model r)
            (Message.intent i) = some (out, st1)) := by
  have hrun : processMessage c (fuel + 1) (initState m r) (Message.intent i) =
      some (MessageProcessed.intentRejected rej,
        { initState m r with handleIntentCalls := 1 }) := by
    simp [processMessage, processMessageGo, resolveMessage, initState, hrej]
  refine ⟨fun st1 st2 msg1 msg2 h1 h2 => by rw [h1, h2], ?_⟩
  intro out st1 h
  rw [hrun] at h
  obtain ⟨h1, h2⟩ := Prod.mk.injEq .. ▸ Option.some.injEq .. ▸ h
  subst h1
  subst h2
  exact ⟨rfl, rfl, hrun⟩

/-- Witness for C8 at a concrete input. -/
theorem processMessage_deterministic_rejection_idempotent_witness :
    MessageProcessed.intentRejected () =
        MessageProcessed.intentRejected (() : Unit) ∧
    ({ initState 5 () with handleIntentCalls := 1 } :
        ProcState Nat Unit Unit Unit ModelChanged).model = 5 ∧
    processMessage quietOps 1
        (initState ({ initState 5 () with handleIntentCalls := 1 } :
          ProcState Nat Unit Unit Unit ModelChanged).model ())
        (Message.intent ()) =
      some (MessageProcessed.intentRejected (),
        { initState 5 () with handleIntentCalls := 1 }) :=
  (processMessage_deterministic_rejection_idempotent quietOps 0 5 () () ()
      rfl).2
    (MessageProcessed.intentRejected ())
    { initState 5 () with handleIntentCalls := 1 } rfl

end Infect

namespace Messaging

/-- C2 (amended): the `all_tasks_finished` consultation lives in
`message_loop`, which consults it directly when `handle_next_message`
reports `NoProgress` — without an intervening non-blocking dequeue: if
the oracle answers `true` the loop breaks (the idle exit), and if it
answers `false` the loop block-waits for the next message; hence with a
task executor whose `all_tasks_finished()` is always `false`, the loop
never terminates via the idle exit.  `consume_messages`, by contrast,
never consults any such oracle: when a processed message yields
`NoProgress` and the non-blocking dequeue finds the channel empty but
not closed, it terminates with the `NoProgress` outcome for its caller
to decide. -/
theorem messageLoop_noProgress_policy
    {S RS Intent Effect Task : Type}
    {M2 R2 I2 E2 T2 Rj2 H2 : Type}
    (c : StateOps S RS Intent Effect Task)
    (c2 : Infect.ModelOps M2 R2 I2 E2 T2 Rj2 H2) (hfuel pfuel : Nat) :
    (∀ (lfuel : Nat) (s : S) (rs : RS)
        (queue : List (Infect.Message Intent Effect)) (closed : Bool)
        (k : Nat) (ex : LoopExit) (s1 : S),
        messageLoopGo c (fun _ => false) hfuel lfuel s rs queue closed k =
          some (ex, s1) →
        ex ≠ LoopExit.idleExit) ∧
    (∀ (lfuel : Nat) (m : M2) (r : R2) (msg : Infect.Message I2 E2)
        (st1 : Infect.ProcState M2 R2 I2 T2 H2),
        Infect.processMessage c2 pfuel (Infect.initState m r) msg =
          some (Infect.MessageProcessed.noProgress, st1) →
        st1.submittedIntents = [] →
        Infect.consumeMessagesGo c2 pfuel (lfuel + 1) m r [msg] false =
          some (Infect.ConsumeExit.noProgressExit, st1.model)) := by
  constructor
  · intro lfuel
    induction lfuel with
    | zero =>
      intro s rs queue closed k ex s1 hLoop
      simp [messageLoopGo] at hLoop
    | succ lfuel IH =>
      intro s rs queue closed k ex s1 hLoop
      cases queue with
      | nil =>
        simp only [messageLoopGo] at hLoop
        split at hLoop <;>
          (simp only [Option.some.injEq, Prod.mk.injEq] at hLoop;
           obtain ⟨hex, -⟩ := hLoop; subst hex; simp)
      | cons msg rest =>
        simp only [messageLoopGo] at hLoop
        cases hH : handleNextMessage c hfuel s rs msg with
        | none =>
          simp only [hH] at hLoop
          exact Option.noConfusion hLoop
        | some res =>
          simp only [hH] at hLoop
          cases hRes : res.handled with
          | progressing =>
            simp only [hRes] at hLoop
            exact IH _ _ _ _ _ _ _ hLoop
          | noProgress =>
            simp only [hRes] at hLoop
            simp only [Bool.false_eq_true, if_false] at hLoop
            exact IH _ _ _ _ _ _ _ hLoop
  · intro lfuel m r msg st1 hrun hsub
    simp only [Infect.consumeMessagesGo, hrun, hsub, List.map_nil,
      List.nil_append, List.append_nil, Bool.false_eq_true, if_false]

/-- Witness for the amended C2 at concrete inputs: a run of
`message_loop` over one no-progress message with the always-`false`
oracle parks at the blocking receive (so its exit is not the idle one),
and a run of `consume_messages` over one no-progress message terminates
with the `NoProgress` outcome. -/
theorem messageLoop_noProgress_policy_witness :
    LoopExit.wouldBlock ≠ LoopExit.idleExit ∧
    Infect.consumeMessagesGo Infect.quietOps 1 1 0 ()
        [Infect.Message.effect ()] false =
      some (Infect.ConsumeExit.noProgressExit, 1) :=
  ⟨(messageLoop_noProgress_policy quietStateOps Infect.quietOps 1 1).1
      2 () () [Infect.Message.effect ()] false 0 LoopExit.wouldBlock () rfl,
   (messageLoop_noProgress_policy quietStateOps Infect.quietOps 1 1).2
      0 0 () (Infect.Message.effect ())
      { model := 1, render := (), spawnedTasks := [],
        submittedIntents := [], renderCalls := [],
        handleIntentCalls := 0, applyEffectCalls := 1 } rfl rfl⟩

end Messaging

namespace Infect

/-- C2 counterexample: in `consume_messages` — the consume loop of the
feature-complete variant — processing a message that yields `NoProgress`
after which the non-blocking dequeue finds the channel empty but not
closed makes the loop terminate with the `NoProgress` outcome: it never
consults any `all_tasks_finished()` oracle (its task executor interface
has none) and it does not block-wait, refuting the claim that in this
situation the loop consults the oracle and, on `false`, block-waits
rather than terminating. -/
theorem consumeMessages_noProgress_terminates_cex :
    consumeMessagesGo quietOps 1 1 0 () [Message.effect ()] false =
      some (ConsumeExit.noProgressExit, 1) := rfl

end Infect
